import Mathlib

/-!
Verification development for the Polymarket trading agent repository.

Shallow embedding of the components the claims concern:
* `src/vps/connectors/polymarket_position_store.py` (fill de-duplication store)
* the paper ledger of `src/vps/vps_agent.py` (entry buy / scale-in buy /
  exit sell / auto-settlement sell, lines 3672-3814, 4113-4145, 4940-5109)
* `tools/pm_orderbook_sizer.py` (liquidity-aware sizer)
* `src/scripts/find_pm_deadline_edges.py` (calendar-ladder scanner)
* `src/vps/connectors/deribit_options_public.py` (risk-neutral probabilities)
* `src/vps/strategies/lead_lag.py` (lag and noise estimators)

Python floats are modelled as `ℚ` where the code only uses field arithmetic
and comparisons, and as `ℝ` where the code uses `sqrt`/`log`/`exp`/`erf`.
-/

/-! ## Polymarket position store (`polymarket_position_store.py`) -/

/-- Source `FillEvent` dataclass (lines 9-16): trade_id, token_id, side, size,
optional price and timestamp. -/
structure FillEvent where
  tradeId : String
  tokenId : String
  side : String
  size : ℚ
  price : Option ℚ := none
  tsMs : Option ℤ := none
deriving DecidableEq

/-- Source `_norm_side` (lines 19-25): trim + lowercase, map b/buy/bid to "buy",
s/sell/ask to "sell", empty to "unknown", otherwise pass through. -/
def normSide (side : String) : String :=
  let s := side.trim.toLower
  if s = "b" ∨ s = "buy" ∨ s = "bid" then "buy"
  else if s = "s" ∨ s = "sell" ∨ s = "ask" then "sell"
  else if s = "" then "unknown" else s

/-- State of `PolymarketPositionStore` (lines 44-59): the set of seen trade
ids (a Python `set`, modelled as the list of inserted ids), the per-token net
shares `dict` (association list in insertion order), the fill counter and the
last-update timestamp. The reconcile bookkeeping field is not touched by
`apply_fill` and is omitted. -/
structure PositionStore where
  seenTradeIds : List String
  netSharesByToken : List (String × ℚ)
  fillsTotal : ℕ
  lastUpdateMs : Option ℤ
deriving DecidableEq

/-- The empty store (dataclass defaults). -/
def PositionStore.empty : PositionStore :=
  { seenTradeIds := [], netSharesByToken := [], fillsTotal := 0, lastUpdateMs := none }

/-- Python `dict.get(k, default 0.0)` on the net-shares map. -/
def getNet : List (String × ℚ) → String → ℚ
  | [], _ => 0
  | (k, v) :: rest, key => if k = key then v else getNet rest key

/-- Python `dict[k] = v`: update in place if the key exists (keeping insertion
order), else append. -/
def setNet : List (String × ℚ) → String → ℚ → List (String × ℚ)
  | [], key, v => [(key, v)]
  | (k, w) :: rest, key, v =>
    if k = key then (key, v) :: rest else (k, w) :: setNet rest key v

/-- Source `PolymarketPositionStore.apply_fill` (lines 61-83).  `nowMs` models
`int(time.time() * 1000)`, used only when the fill carries no timestamp.
Returns the `bool` result together with the updated store. -/
def applyFill (s : PositionStore) (fill : FillEvent) (nowMs : ℤ) : Bool × PositionStore :=
  let tradeId := fill.tradeId.trim
  let tokenId := fill.tokenId.trim
  if tradeId = "" ∨ tokenId = "" then (false, s)
  else
    let side := normSide fill.side
    let size := fill.size
    if ¬ (0 < size) then (false, s)
    else
      let delta : ℚ := if side = "buy" then size else if side = "sell" then -size else 0
      if delta = 0 then (false, s)
      else if tradeId ∈ s.seenTradeIds then (false, s)
      else
        (true,
          { seenTradeIds := tradeId :: s.seenTradeIds
            netSharesByToken := setNet s.netSharesByToken tokenId (getNet s.netSharesByToken tokenId + delta)
            fillsTotal := s.fillsTotal + 1
            lastUpdateMs := some (match fill.tsMs with | some t => t | none => nowMs) })

/-! ## Paper ledger (`vps_agent.py`)

The ledger state is `paper_cash`, `paper_realized` and the dict
`paper_positions : token_id → {shares, avg_entry, ...}`.  The remaining dict
entries (`market`, `outcome`, `opened_at`, `adds`, `last_mid`,
`last_scale_at`) are bookkeeping strings/counters that the ledger arithmetic
never reads; they are omitted from the embedded position record. -/

/-- The fields of a paper position read by the ledger arithmetic. -/
structure PaperPosition where
  shares : ℚ
  avgEntry : ℚ
deriving DecidableEq

/-- Paper ledger state: `paper_cash`, `paper_realized`, `paper_positions`. -/
structure LedgerState where
  cash : ℚ
  realized : ℚ
  positions : List (String × PaperPosition)
deriving DecidableEq

/-- The `1e-9` tolerance used by the cash guard and the average-entry
denominator. -/
def ledgerEps : ℚ := 1 / 1000000000

/-- Source `dict.get` on the positions map. -/
def lookupPos : List (String × PaperPosition) → String → Option PaperPosition
  | [], _ => none
  | (k, p) :: rest, key => if k = key then some p else lookupPos rest key

/-- Source `paper_positions[token_id] = {...}`. -/
def setPos : List (String × PaperPosition) → String → PaperPosition → List (String × PaperPosition)
  | [], key, p => [(key, p)]
  | (k, q) :: rest, key, p =>
    if k = key then (key, p) :: rest else (k, q) :: setPos rest key p

/-- Source `paper_positions.pop(token_id, None)`. -/
def removePos : List (String × PaperPosition) → String → List (String × PaperPosition)
  | [], _ => []
  | (k, q) :: rest, key =>
    if k = key then rest else (k, q) :: removePos rest key

/-- Source `float(prev.get("shares") or 0.0)` for an optional position. -/
def prevSharesOf (prev : Option PaperPosition) : ℚ :=
  match prev with
  | some p => p.shares
  | none => 0

/-- Source `float(prev.get("avg_entry") or fill_price)`: Python `or` falls back to
the fill price when the stored average is absent or equal to `0.0`. -/
def prevAvgOf (prev : Option PaperPosition) (fillPrice : ℚ) : ℚ :=
  match prev with
  | some p => if p.avgEntry = 0 then fillPrice else p.avgEntry
  | none => fillPrice

/-- Paper BUY fill (entry lines 3672-3698, scale-in lines 3749-3782 and
`_paper_buy` lines 4113-4133 share this arithmetic): reject with
`size_zero` when `shares ≤ 0`, reject with `insufficient_cash` when
`cash + 1e-9 < notional`, otherwise update the size-weighted average entry
(denominator `max(new_shares, 1e-9)`) and debit the cash.  Returns
`(status, notes, state)` mirroring `paper_status` / `paper_notes`. -/
def paperBuy (st : LedgerState) (tokenId : String) (fillPrice shares : ℚ) :
    String × String × LedgerState :=
  let notional := fillPrice * shares
  if shares ≤ 0 then ("rejected", "size_zero", st)
  else if st.cash + ledgerEps < notional then ("rejected", "insufficient_cash", st)
  else
    let prev := lookupPos st.positions tokenId
    let prevShares := prevSharesOf prev
    let prevAvg := prevAvgOf prev fillPrice
    let newShares := prevShares + shares
    let newAvg := (prevShares * prevAvg + shares * fillPrice) / max newShares ledgerEps
    ("filled", "",
      { st with
        cash := st.cash - notional
        positions := setPos st.positions tokenId ⟨newShares, newAvg⟩ })

/-- Paper exit SELL (lines 3719-3727): sell the whole position at the fill
price, credit the notional, realize `(fill - avg_entry) * shares`, and pop
the position.  When no position exists the code sells zero shares. -/
def paperSell (st : LedgerState) (tokenId : String) (fillPrice : ℚ) : LedgerState :=
  match lookupPos st.positions tokenId with
  | none =>
    { st with
      cash := st.cash + fillPrice * 0
      realized := st.realized + (fillPrice - fillPrice) * 0 }
  | some p =>
    let shares := p.shares
    let avgEntry := if p.avgEntry = 0 then fillPrice else p.avgEntry
    { st with
      cash := st.cash + fillPrice * shares
      realized := st.realized + (fillPrice - avgEntry) * shares
      positions := removePos st.positions tokenId }

/-- Auto-settlement SELL (lines 4940-4944 and 5059-5062 / 5092-5095): skip
positions with `shares ≤ 0`; otherwise credit `exit_px * shares`, realize
`(exit_px - avg_entry) * shares` (here `avg_entry = float(... or 0.0)`, the
identity on `ℚ`), and pop the position.  `exitPx` is the settlement or mark
price chosen by the caller. -/
def paperAutoSell (st : LedgerState) (tokenId : String) (exitPx : ℚ) : LedgerState :=
  match lookupPos st.positions tokenId with
  | none => st
  | some p =>
    if p.shares ≤ 0 then st
    else
      { st with
        cash := st.cash + exitPx * p.shares
        realized := st.realized + (exitPx - p.avgEntry) * p.shares
        positions := removePos st.positions tokenId }

/-- One paper-ledger operation (the four mutation sites of the source). -/
inductive LedgerOp where
  | entryBuy (tokenId : String) (fillPrice shares : ℚ)
  | scaleBuy (tokenId : String) (fillPrice shares : ℚ)
  | exitSell (tokenId : String) (fillPrice : ℚ)
  | autoSell (tokenId : String) (exitPx : ℚ)
deriving DecidableEq

/-- Apply one operation to the ledger state. -/
def ledgerStep (st : LedgerState) (op : LedgerOp) : LedgerState :=
  match op with
  | .entryBuy tok px sh => (paperBuy st tok px sh).2.2
  | .scaleBuy tok px sh => (paperBuy st tok px sh).2.2
  | .exitSell tok px => paperSell st tok px
  | .autoSell tok px => paperAutoSell st tok px

/-- Run a sequence of ledger operations. -/
def ledgerRun (st : LedgerState) (ops : List LedgerOp) : LedgerState :=
  ops.foldl ledgerStep st

/-- The (fill or exit) price carried by an operation. -/
def LedgerOp.opPrice : LedgerOp → ℚ
  | .entryBuy _ px _ => px
  | .scaleBuy _ px _ => px
  | .exitSell _ px => px
  | .autoSell _ px => px

/-! ## Orderbook sizer (`tools/pm_orderbook_sizer.py`) -/

/-- Source `BookLevel` (lines 11-14). -/
structure BookLevel where
  price : ℚ
  size : ℚ
deriving DecidableEq

/-- Source `Book` (lines 17-22); the order-book snapshot fed to the sizer. -/
structure Book where
  bids : List BookLevel
  asks : List BookLevel
  minOrderSize : Option ℚ := none
  tickSize : Option ℚ := none
deriving DecidableEq

/-- Source `SizingResult` (lines 25-32). -/
structure SizingResult where
  bestPrice : ℚ
  bandLimitPrice : ℚ
  liquiditySharesInBand : ℚ
  liquidityUsdcInBand : ℚ
  suggestedMaxUsdc : ℚ
  suggestedMaxShares : ℚ
deriving DecidableEq

/-- The `Side` literal type. -/
inductive Side where
  | BUY
  | SELL
deriving DecidableEq

/-- Source `_sum_usdc` (lines 128-132): total shares and total price*size notional. -/
def sumUsdc (levels : List BookLevel) : ℚ × ℚ :=
  ((levels.map fun l => l.size).sum, (levels.map fun l => l.price * l.size).sum)

/-- Source `PolymarketOrderbookSizer.size_max_trade` (lines 63-108), with the
already-fetched `Book` passed in (the HTTP fetch of `get_book` is outside the
sizing logic).  Empty relevant side raises, modelled as `Except.error`. -/
def sizeMaxTrade (book : Book) (side : Side) (slippageCap maxFraction hardCap : ℚ) :
    Except String SizingResult :=
  let picked : Except String (ℚ × ℚ × List BookLevel) :=
    match side with
    | .BUY =>
      match book.asks with
      | [] => .error "No asks in book (cannot BUY)."
      | a :: _ =>
        let best := a.price
        let limit := best + slippageCap
        .ok (best, limit, book.asks.filter fun lv => lv.price ≤ limit)
    | .SELL =>
      match book.bids with
      | [] => .error "No bids in book (cannot SELL)."
      | b :: _ =>
        let best := b.price
        let limit := max 0 (best - slippageCap)
        .ok (best, limit, book.bids.filter fun lv => limit ≤ lv.price)
  match picked with
  | .error e => .error e
  | .ok (best, limit, inBand) =>
    let liqShares := (sumUsdc inBand).1
    let liqUsdc := (sumUsdc inBand).2
    let suggestedMaxUsdc := min hardCap (liqUsdc * maxFraction)
    let suggestedShares := if best ≤ 0 then 0 else suggestedMaxUsdc / best
    let adjusted : ℚ × ℚ :=
      match book.minOrderSize with
      | some m =>
        if suggestedShares < m then
          if m ≤ liqShares ∧ m * best ≤ hardCap then (m * best, m)
          else (suggestedMaxUsdc, suggestedShares)
        else (suggestedMaxUsdc, suggestedShares)
      | none => (suggestedMaxUsdc, suggestedShares)
    .ok
      { bestPrice := best
        bandLimitPrice := limit
        liquiditySharesInBand := liqShares
        liquidityUsdcInBand := liqUsdc
        suggestedMaxUsdc := adjusted.1
        suggestedMaxShares := adjusted.2 }

/-! ## Calendar-ladder scanner (`find_pm_deadline_edges.py`) -/

/-- Source `MarketRow` (lines 137-148).  `end_date` is the parsed end datetime,
modelled as an integer timestamp; prices are rationals.  `ts`, `volume_usd`
and `liquidity_usd` are carried but never read by `_find_edges`. -/
structure MarketRow where
  slug : String
  question : String
  endDate : ℤ
  yesBid : ℚ
  yesAsk : ℚ
  noBid : Option ℚ := none
  noAsk : Option ℚ := none
deriving DecidableEq

/-- Source `DeadlineEdge` (lines 151-168). -/
structure DeadlineEdge where
  base : String
  early : MarketRow
  late : MarketRow
  guaranteedProfit : ℚ
  betweenDeadlinesProfit : ℚ
  doubleWinCost : Option ℚ
  doubleWinGuaranteedProfit : Option ℚ
  doubleWinProfit : Option ℚ
deriving DecidableEq

/-- Source `by_base.setdefault(base, []).append(r)`: append the row to its group,
keeping dict insertion order of the keys. -/
def appendToGroup : List (String × List MarketRow) → String → MarketRow →
    List (String × List MarketRow)
  | [], base, r => [(base, [r])]
  | (k, g) :: rest, base, r =>
    if k = base then (k, g ++ [r]) :: rest else (k, g) :: appendToGroup rest base r

/-- The `by_base` grouping loop of `_find_edges` (lines 211-216).  The
`_base_key` slug/question normalisation (regex stripping of deadline tokens)
is kept abstract as the function `baseOf`; rows with an empty base are
skipped. -/
def groupByBase (baseOf : MarketRow → String) (rows : List MarketRow) :
    List (String × List MarketRow) :=
  rows.foldl
    (fun acc r =>
      let base := baseOf r
      if base = "" then acc else appendToGroup acc base r)
    []

/-- Sort key relation of `sorted(group, key=lambda x: x.end_date)`. -/
def endDateLe (x y : MarketRow) : Prop := x.endDate ≤ y.endDate

instance : DecidableRel endDateLe := fun x y => inferInstanceAs (Decidable (x.endDate ≤ y.endDate))

instance : IsTotal MarketRow endDateLe := ⟨fun x y => le_total x.endDate y.endDate⟩

instance : IsTrans MarketRow endDateLe := ⟨fun _ _ _ h h' => le_trans h h'⟩

/-- Python's stable ascending sort by `end_date`. -/
def sortGroup (g : List MarketRow) : List MarketRow := g.insertionSort endDateLe

/-- The adjacent index pairs `(group_sorted[i], group_sorted[i+1])`. -/
def adjacentPairs (l : List MarketRow) : List (MarketRow × MarketRow) := l.zip l.tail

/-- The body of the adjacent-pair loop (lines 224-260): skip unless
`early.end_date < late.end_date`, skip unless the guaranteed profit strictly
exceeds the minimum, then build the `DeadlineEdge`. -/
def evalPair (base : String) (minGuaranteedProfit : ℚ) (pr : MarketRow × MarketRow) :
    Option DeadlineEdge :=
  let early := pr.1
  let late := pr.2
  if late.endDate ≤ early.endDate then none
  else
    let guaranteedProfit := early.yesBid - late.yesAsk
    if guaranteedProfit ≤ minGuaranteedProfit then none
    else
      let betweenProfit := guaranteedProfit + 1
      let dw : Option ℚ × Option ℚ × Option ℚ :=
        match early.noAsk with
        | some na =>
          let cost := na + late.yesAsk
          (some cost, some (1 - cost), some (2 - cost))
        | none => (none, none, none)
      some
        { base := base
          early := early
          late := late
          guaranteedProfit := guaranteedProfit
          betweenDeadlinesProfit := betweenProfit
          doubleWinCost := dw.1
          doubleWinGuaranteedProfit := dw.2.1
          doubleWinProfit := dw.2.2 }

/-- Descending-by-profit relation of `found.sort(key=..., reverse=True)`. -/
def profitGe (x y : DeadlineEdge) : Prop := y.guaranteedProfit ≤ x.guaranteedProfit

instance : DecidableRel profitGe := fun x y =>
  inferInstanceAs (Decidable (y.guaranteedProfit ≤ x.guaranteedProfit))

/-- Source `_find_edges` (lines 210-263): group by base key, keep groups with at
least two members, sort each ascending by end_date, evaluate adjacent pairs,
and sort the collected edges by guaranteed profit descending. -/
def findEdges (baseOf : MarketRow → String) (rows : List MarketRow)
    (minGuaranteedProfit : ℚ) : List DeadlineEdge :=
  let byBase := groupByBase baseOf rows
  let found :=
    byBase.foldl
      (fun acc bg =>
        if bg.2.length < 2 then acc
        else acc ++ (adjacentPairs (sortGroup bg.2)).filterMap (evalPair bg.1 minGuaranteedProfit))
      []
  found.insertionSort profitGe

/-! ## Risk-neutral probabilities (`deribit_options_public.py`) -/

/-- Source `_norm_cdf` (lines 25-27): `0.5 * (1 + erf(x / sqrt 2))`, i.e. the
standard normal cumulative distribution function, embedded as the CDF of the
`N(0,1)` Gaussian measure. -/
noncomputable def normCdf (x : ℝ) : ℝ :=
  ProbabilityTheory.cdf (ProbabilityTheory.gaussianReal 0 1) x

/-- Source `risk_neutral_prob_above_strike` (lines 30-45): raise on any non-positive
input (modelled as `Except.error` with the `ValueError` message), otherwise
`Φ(d2)` with `d2 = (ln(F/K) − 0.5σ²T)/(σ√T)`. -/
noncomputable def riskNeutralProbAboveStrike (forward strike sigma tYears : ℝ) :
    Except String ℝ :=
  if forward ≤ 0 ∨ strike ≤ 0 then .error "forward and strike must be > 0"
  else if sigma ≤ 0 then .error "sigma must be > 0"
  else if tYears ≤ 0 then .error "t_years must be > 0"
  else
    let denom := sigma * Real.sqrt tYears
    let d2 := (Real.log (forward / strike) - 0.5 * sigma * sigma * tYears) / denom
    .ok (normCdf d2)

/-- Source `risk_neutral_prob_touch_above_strike` (lines 48-82): raise on any
non-positive input; `1` when the barrier is already breached; otherwise the
reflection-principle formula clamped to `[0,1]`. -/
noncomputable def riskNeutralProbTouchAboveStrike (spot barrier sigma tYears drift : ℝ) :
    Except String ℝ :=
  if spot ≤ 0 ∨ barrier ≤ 0 then .error "spot and barrier must be > 0"
  else if sigma ≤ 0 then .error "sigma must be > 0"
  else if tYears ≤ 0 then .error "t_years must be > 0"
  else if barrier ≤ spot then .ok 1
  else
    let a := Real.log (barrier / spot)
    let m := drift - 0.5 * sigma * sigma
    let denom := sigma * Real.sqrt tYears
    let z1 := -(a - m * tYears) / denom
    let z2 := -(a + m * tYears) / denom
    let p := normCdf z1 + Real.exp ((2 * m * a) / (sigma * sigma)) * normCdf z2
    .ok (max 0 (min 1 p))

/-- Source `risk_neutral_prob_touch_below_strike` (lines 85-116): the mirrored
lower-barrier formula, clamped to `[0,1]`. -/
noncomputable def riskNeutralProbTouchBelowStrike (spot barrier sigma tYears drift : ℝ) :
    Except String ℝ :=
  if spot ≤ 0 ∨ barrier ≤ 0 then .error "spot and barrier must be > 0"
  else if sigma ≤ 0 then .error "sigma must be > 0"
  else if tYears ≤ 0 then .error "t_years must be > 0"
  else if spot ≤ barrier then .ok 1
  else
    let a := Real.log (spot / barrier)
    let m := drift - 0.5 * sigma * sigma
    let denom := sigma * Real.sqrt tYears
    let z1 := -(a + m * tYears) / denom
    let z2 := -(a - m * tYears) / denom
    let p := normCdf z1 + Real.exp ((-2 * m * a) / (sigma * sigma)) * normCdf z2
    .ok (max 0 (min 1 p))

/-! ## Lead-lag estimator (`lead_lag.py`)

Timestamps are modelled directly in milliseconds (the code stores `datetime`
values and converts gaps via `total_seconds() * 1000`), prices in `ℝ`. -/

/-- Source `pct_change` (lines 9-12). -/
noncomputable def pctChange (oldP newP : ℝ) : ℝ :=
  if oldP = 0 then 0 else (newP / oldP - 1) * 100

/-- Source `PriceHistory` (lines 19-31): per-key spot and pm series of
(timestamp-ms, price) pairs. -/
structure PriceHistory where
  spot : List (ℝ × ℝ)
  pm : List (ℝ × ℝ)

/-- Python list suffix `l[-n:]`. -/
def lastN (l : List (ℝ × ℝ)) (n : ℕ) : List (ℝ × ℝ) := l.drop (l.length - n)

/-- The per-interval return series (lines 169-172): one `pct_change` per
consecutive price pair. -/
noncomputable def retsOf (l : List (ℝ × ℝ)) : List ℝ :=
  (l.zip l.tail).map fun ab => pctChange ab.1.2 ab.2.2

/-- Consecutive differences (the `dts_ms` loop, lines 188-190). -/
noncomputable def diffs (l : List ℝ) : List ℝ :=
  (l.zip l.tail).map fun ab => ab.2 - ab.1

/-- Source `n_prices = min(len(h.spot), len(h.pm))` (line 149). -/
def nPricesOf (h : PriceHistory) : ℕ := min h.spot.length h.pm.length

/-- Source `spot = h.spot[-n_prices:]` (line 163). -/
def spotWindow (h : PriceHistory) : List (ℝ × ℝ) := lastN h.spot (nPricesOf h)

/-- Source `pm = h.pm[-n_prices:]` (line 164). -/
def pmWindow (h : PriceHistory) : List (ℝ × ℝ) := lastN h.pm (nPricesOf h)

/-- The spot return series `s_ret`. -/
noncomputable def sRetOf (h : PriceHistory) : List ℝ := retsOf (spotWindow h)

/-- The pm return series `p_ret`. -/
noncomputable def pRetOf (h : PriceHistory) : List ℝ := retsOf (pmWindow h)

/-- Source `ts_list`: the spot timestamps from index 1 of the window (line 170). -/
def tsListOf (h : PriceHistory) : List ℝ := ((spotWindow h).drop 1).map Prod.fst

/-- The inter-sample gaps `dts_ms`. -/
noncomputable def dtsOf (h : PriceHistory) : List ℝ := diffs (tsListOf h)

/-- Source `dt_ms = sorted(dts_ms)[len // 2]` (lines 202-203): the (upper) median
inter-sample gap. -/
noncomputable def dtMsOf (h : PriceHistory) : ℝ :=
  let s := (dtsOf h).insertionSort (· ≤ ·)
  s.getD (s.length / 2) 0

/-- Source `_std` (lines 237-242): sample standard deviation with denominator
`max(len - 1, 1)`; `0` when the variance is not positive. -/
noncomputable def stdOf (xs : List ℝ) : ℝ :=
  if xs = [] then 0
  else
    let m := xs.sum / xs.length
    let v := (xs.map fun x => (x - m) * (x - m)).sum / (max (xs.length - 1) 1 : ℕ)
    if 0 < v then Real.sqrt v else 0

/-- Source `_corr` (lines 217-233): Pearson correlation over de-meaned vectors;
the float `nan` results (length mismatch, short input, non-positive
variance) are modelled as `none`. -/
noncomputable def corr (a b : List ℝ) : Option ℝ :=
  if a.length ≠ b.length ∨ a.length < 5 then none
  else
    let ma := a.sum / a.length
    let mb := b.sum / b.length
    let num := ((a.zip b).map fun xy => (xy.1 - ma) * (xy.2 - mb)).sum
    let da := (a.map fun x => (x - ma) * (x - ma)).sum
    let db := (b.map fun y => (y - mb) * (y - mb)).sum
    if da ≤ 0 ∨ db ≤ 0 then none
    else some (num / (Real.sqrt da * Real.sqrt db))

/-- State of the lag scan (lines 256-258): `best_lag`, `best_c`, `second_c`;
the `float("-inf")` sentinels are modelled as `none`. -/
structure ScanState where
  bestLag : Option ℕ
  bestC : Option ℝ
  secondC : Option ℝ

/-- One iteration of the lag loop (lines 260-281): align the series for the
given lag (`s_ret[:-lag]` against `p_ret[lag:]`), require enough aligned
points, skip invalid correlations, and track the best and second-best
correlation (promoting the previous best to second-best). -/
noncomputable def scanStep (minCorrPoints : ℕ) (sRet pRet : List ℝ)
    (s : ScanState) (lag : ℕ) : ScanState :=
  let a := if lag = 0 then sRet else sRet.take (sRet.length - lag)
  let b := if lag = 0 then pRet else pRet.drop lag
  if a.length ≠ b.length then s
  else if a.length < max minCorrPoints 5 then s
  else
    match corr a b with
    | none => s
    | some c =>
      match s.bestC with
      | none => { bestLag := some lag, bestC := some c, secondC := s.bestC }
      | some bc =>
        if bc < c then { bestLag := some lag, bestC := some c, secondC := s.bestC }
        else
          match s.secondC with
          | none => { s with secondC := some c }
          | some sc => if sc < c then { s with secondC := some c } else s

/-- The full scan over `lag ∈ [0, max_lag]`. -/
noncomputable def scanAll (minCorrPoints maxLag : ℕ) (sRet pRet : List ℝ) : ScanState :=
  (List.range (maxLag + 1)).foldl (scanStep minCorrPoints sRet pRet) ⟨none, none, none⟩

/-- Source `MarketLagEstimate` (lines 54-64). -/
structure MarketLagEstimate where
  ok : Bool
  lagMs : Option ℝ
  lagPoints : Option ℤ
  dtMs : Option ℝ
  bestCorr : Option ℝ
  secondBestCorr : Option ℝ
  corrGap : Option ℝ
  reason : Option String

open scoped Classical in
/-- Source `LeadLagEngine.estimate_market_lag` (lines 119-317).  `hOpt = none`
models an unknown key (`no_history`).  The reason tags that the source
builds with f-string interpolated counts/thresholds are kept as their bare
prefixes (`not_enough_prices`, `not_enough_returns`, `corr_too_low`,
`corr_gap_too_low`).  The source's `ok = abs(best_c) >= min_abs_corr and
(gap is None or gap >= min_corr_gap)` is expressed as the decidable
proposition `okP`. -/
noncomputable def estimateMarketLag (hOpt : Option PriceHistory) (maxLagPoints : ℤ)
    (minPoints minCorrPoints : ℕ) (minAbsCorr minCorrGap : ℝ) : MarketLagEstimate :=
  match hOpt with
  | none => ⟨false, none, none, none, none, none, none, some "no_history"⟩
  | some h =>
    if nPricesOf h < max minPoints 3 then
      ⟨false, none, some (nPricesOf h : ℤ), none, none, none, none, some "not_enough_prices"⟩
    else if (sRetOf h).length < max (minPoints - 1) 3 then
      ⟨false, none, some ((sRetOf h).length : ℤ), none, none, none, none,
        some "not_enough_returns"⟩
    else if dtsOf h = [] then
      ⟨false, none, none, none, none, none, none, some "no_dt"⟩
    else if dtMsOf h ≤ 0 then
      ⟨false, none, none, none, none, none, none, some "bad_dt"⟩
    else if stdOf (sRetOf h) < 1 / 1000000000 ∨ stdOf (pRetOf h) < 1 / 1000000000 then
      ⟨false, none, some ((sRetOf h).length : ℤ), some (dtMsOf h), none, none, none,
        some "low_variance"⟩
    else
      let fin := scanAll minCorrPoints (max 0 maxLagPoints).toNat (sRetOf h) (pRetOf h)
      match fin.bestLag, fin.bestC with
      | some bl, some bc =>
        let lagMs := (bl : ℝ) * dtMsOf h
        let gap : Option ℝ := fin.secondC.map fun sc => bc - sc
        let okP : Prop :=
          minAbsCorr ≤ |bc| ∧ (gap = none ∨ ∃ g, gap = some g ∧ minCorrGap ≤ g)
        ⟨decide okP, some lagMs, some (((sRetOf h).length : ℤ) - (bl : ℤ)), some (dtMsOf h),
          some bc, fin.secondC, gap,
          if okP then none
          else if |bc| < minAbsCorr then some "corr_too_low" else some "corr_gap_too_low"⟩
      | _, _ => ⟨false, none, none, some (dtMsOf h), none, none, none, some "no_valid_corr"⟩

/-- Source `LeadLagEngine.estimate_spot_noise_pct` (lines 319-354): sample standard
deviation of the most recent window of spot returns; `none` when the history
is too short or the variance is negative. -/
noncomputable def estimateSpotNoisePct (hOpt : Option PriceHistory)
    (windowPoints minPoints : ℕ) : Option ℝ :=
  match hOpt with
  | none => none
  | some h =>
    let nPrices := h.spot.length
    if nPrices < max (minPoints + 1) 3 then none
    else
      let nTake := min nPrices (max (windowPoints + 1) (minPoints + 1))
      let spot := lastN h.spot nTake
      let rets := retsOf spot
      if rets.length < minPoints then none
      else
        let m := rets.sum / rets.length
        let v := (rets.map fun x => (x - m) * (x - m)).sum / (max (rets.length - 1) 1 : ℕ)
        if v < 0 then none else some (Real.sqrt v)

/-! ## Concrete inputs used by the witnesses and counterexamples -/

/-- A ledger with one dollar of cash and no positions. -/
def ledgerOneDollar : LedgerState := { cash := 1, realized := 0, positions := [] }

/-- A ledger with one hundred dollars of cash and no positions. -/
def ledgerHundred : LedgerState := { cash := 100, realized := 0, positions := [] }

/-- A ledger holding ten shares of one token at average entry 1/2. -/
def ledgerWithPosition : LedgerState :=
  { cash := 95, realized := 0, positions := [("tokA", { shares := 10, avgEntry := 1 / 2 })] }

/-- The sizing example book: asks `[(0.50, 100), (0.51, 200)]`, no bids, no
venue minimum. -/
def exampleBook : Book :=
  { bids := []
    asks := [{ price := 1 / 2, size := 100 }, { price := 51 / 100, size := 200 }]
    minOrderSize := none
    tickSize := none }

/-- Ladder example, early market: yes_bid 0.60, end date 1. -/
def ladderEarly : MarketRow :=
  { slug := "event-by-june", question := "will it happen by june", endDate := 1
    yesBid := 3 / 5, yesAsk := 13 / 20, noBid := none, noAsk := none }

/-- Ladder example, late market: yes_ask 0.55, end date 2. -/
def ladderLate : MarketRow :=
  { slug := "event-by-july", question := "will it happen by july", endDate := 2
    yesBid := 1 / 2, yesAsk := 11 / 20, noBid := none, noAsk := none }

/-- A base-key function that puts both ladder example rows in one group
(standing in for the slug normalisation of `_base_key`). -/
def ladderBaseOf : MarketRow → String := fun _ => "event"

/-- The edge the scanner finds for the ladder example pair. -/
def ladderEdgeFound : DeadlineEdge :=
  { base := "event", early := ladderEarly, late := ladderLate
    guaranteedProfit := 1 / 20, betweenDeadlinesProfit := 21 / 20
    doubleWinCost := none, doubleWinGuaranteedProfit := none, doubleWinProfit := none }

/-- Synthetic leading (spot) series: 10 ticks at 5s spacing, a +10% move at
tick 1 and a -10% move at tick 5. -/
def synthSpot : List (ℝ × ℝ) :=
  [(0, 100), (5000, 110), (10000, 110), (15000, 110), (20000, 110),
   (25000, 99), (30000, 99), (35000, 99), (40000, 99), (45000, 99)]

/-- Synthetic lagging (pm) series: replays `synthSpot` delayed by 3 samples
(the first three ticks hold the initial price). -/
def synthPm : List (ℝ × ℝ) :=
  [(0, 100), (5000, 100), (10000, 100), (15000, 100), (20000, 110),
   (25000, 110), (30000, 110), (35000, 110), (40000, 99), (45000, 99)]

/-- The synthetic delayed-replay history of the end-to-end lag scenario. -/
def synthHist : PriceHistory := { spot := synthSpot, pm := synthPm }

/-- An eleven-point constant price history (both series flat at 100, 1s
spacing). -/
def flatHist : PriceHistory :=
  { spot := [(0, 100), (1000, 100), (2000, 100), (3000, 100), (4000, 100), (5000, 100),
             (6000, 100), (7000, 100), (8000, 100), (9000, 100), (10000, 100)]
    pm := [(0, 100), (1000, 100), (2000, 100), (3000, 100), (4000, 100), (5000, 100),
           (6000, 100), (7000, 100), (8000, 100), (9000, 100), (10000, 100)] }

/-- The ledger invariant of the amended C1: cash is bounded below by the
negated guard tolerance and every stored position has strictly positive
shares. -/
def LedgerInv (st : LedgerState) : Prop :=
  -ledgerEps ≤ st.cash ∧ ∀ tp ∈ st.positions, 0 < (Prod.snd tp).shares

/-! ## Theorems -/

/-- C3: fill application is idempotent keyed by trade_id: applying the same
fill twice changes the store only once — the second application returns
`false` and leaves net shares per token, the seen trade ids and the fill
counter exactly as after the first application (regardless of the wall
clock of either call). -/
theorem C3_apply_fill_idempotent (s : PositionStore) (f : FillEvent) (n₁ n₂ : ℤ) :
    applyFill (applyFill s f n₁).2 f n₂ = (false, (applyFill s f n₁).2) := by
  by_cases hblank : f.tradeId.trim = "" ∨ f.tokenId.trim = ""
  · simp [applyFill, hblank]
  · by_cases hsize : (0 : ℚ) < f.size
    · by_cases hdelta :
        (if normSide f.side = "buy" then f.size
         else if normSide f.side = "sell" then -f.size else 0) = 0
      · simp [applyFill, hblank, hsize, hdelta]
      · by_cases hmem : f.tradeId.trim ∈ s.seenTradeIds
        · simp [applyFill, hblank, hsize, hdelta, hmem]
        · simp [applyFill, hblank, hsize, hdelta, hmem]
    · simp [applyFill, hblank, hsize]

/-- C9: a fill whose trade or token id is blank after trimming, whose size
is not strictly positive, or whose side normalises to neither "buy" nor
"sell", is rejected (`false`) and leaves the store completely unchanged. -/
theorem C9_apply_fill_rejects_invalid (s : PositionStore) (f : FillEvent) (n : ℤ)
    (h : f.tradeId.trim = "" ∨ f.tokenId.trim = "" ∨ ¬ (0 : ℚ) < f.size ∨
      (normSide f.side ≠ "buy" ∧ normSide f.side ≠ "sell")) :
    applyFill s f n = (false, s) := by
  rcases h with h | h | h | ⟨h1, h2⟩
  · simp [applyFill, h]
  · simp [applyFill, h]
  · by_cases hblank : f.tradeId.trim = "" ∨ f.tokenId.trim = ""
    · simp [applyFill, hblank]
    · simp [applyFill, hblank, h]
  · by_cases hblank : f.tradeId.trim = "" ∨ f.tokenId.trim = ""
    · simp [applyFill, hblank]
    · by_cases hsize : (0 : ℚ) < f.size
      · simp [applyFill, hblank, hsize, h1, h2]
      · simp [applyFill, hblank, hsize]

/-- Witness for C9 at a concrete zero-size fill. -/
theorem C9_witness :
    applyFill PositionStore.empty
      { tradeId := "T1", tokenId := "tokA", side := "buy", size := 0 } 0 =
      (false, PositionStore.empty) :=
  C9_apply_fill_rejects_invalid PositionStore.empty
    { tradeId := "T1", tokenId := "tokA", side := "buy", size := 0 } 0
    (Or.inr (Or.inr (Or.inl (by norm_num))))

/-- Looking up a key just stored yields the stored position. -/
theorem lookupPos_setPos (l : List (String × PaperPosition)) (k : String) (p : PaperPosition) :
    lookupPos (setPos l k p) k = some p := by
  induction l with
  | nil => simp [setPos, lookupPos]
  | cons hd tl ih =>
    by_cases h : hd.1 = k
    · simp [setPos, lookupPos, h]
    · simp [setPos, lookupPos, h, ih]

/-- A successful lookup names a member of the association list. -/
theorem lookupPos_mem {l : List (String × PaperPosition)} {k : String} {p : PaperPosition}
    (h : lookupPos l k = some p) : (k, p) ∈ l := by
  induction l with
  | nil => simp [lookupPos] at h
  | cons hd tl ih =>
    rw [show hd = (hd.1, hd.2) from rfl, lookupPos] at h
    by_cases hk : hd.1 = k
    · rw [if_pos hk] at h
      injection h with h
      subst hk h
      exact List.mem_cons_self _ _
    · rw [if_neg hk] at h
      exact List.mem_cons_of_mem _ (ih h)

/-- Membership after a store update comes from the new entry or the old list. -/
theorem mem_setPos {l : List (String × PaperPosition)} {k : String} {p : PaperPosition}
    {tp : String × PaperPosition} (h : tp ∈ setPos l k p) : tp = (k, p) ∨ tp ∈ l := by
  induction l with
  | nil => simpa [setPos] using h
  | cons hd tl ih =>
    rw [show hd = (hd.1, hd.2) from rfl, setPos] at h
    by_cases hk : hd.1 = k
    · rw [if_pos hk] at h
      rcases List.mem_cons.1 h with h | h
      · exact Or.inl h
      · exact Or.inr (List.mem_cons_of_mem _ h)
    · rw [if_neg hk] at h
      rcases List.mem_cons.1 h with h | h
      · exact Or.inr (by rw [h]; exact List.mem_cons_self _ _)
      · rcases ih h with h | h
        · exact Or.inl h
        · exact Or.inr (List.mem_cons_of_mem _ h)

/-- Membership survives a pop. -/
theorem mem_removePos {l : List (String × PaperPosition)} {k : String}
    {tp : String × PaperPosition} (h : tp ∈ removePos l k) : tp ∈ l := by
  induction l with
  | nil => simpa [removePos] using h
  | cons hd tl ih =>
    rw [show hd = (hd.1, hd.2) from rfl, removePos] at h
    by_cases hk : hd.1 = k
    · rw [if_pos hk] at h
      exact List.mem_cons_of_mem _ h
    · rw [if_neg hk] at h
      rcases List.mem_cons.1 h with h | h
      · rw [h]; exact List.mem_cons_self _ _
      · exact List.mem_cons_of_mem _ (ih h)

/-- One ledger operation with a non-negative price preserves the ledger
invariant. -/
theorem ledgerStep_inv (st : LedgerState) (op : LedgerOp) (hInv : LedgerInv st)
    (hp : 0 ≤ op.opPrice) : LedgerInv (ledgerStep st op) := by
  obtain ⟨hcash, hpos⟩ := hInv
  have buyCase : ∀ tok px sh, LedgerInv (paperBuy st tok px sh).2.2 := by
    intro tok px sh
    by_cases h1 : sh ≤ 0
    · simpa [paperBuy, h1] using ⟨hcash, hpos⟩
    · by_cases h2 : st.cash + ledgerEps < px * sh
      · simpa [paperBuy, h1, h2] using ⟨hcash, hpos⟩
      · have hsh : 0 < sh := lt_of_not_le h1
        have hnot : px * sh ≤ st.cash + ledgerEps := not_lt.1 h2
        constructor
        · simp only [paperBuy, if_neg h1, if_neg h2]
          have : -ledgerEps ≤ st.cash - px * sh := by linarith
          simpa using this
        · intro tp htp
          simp only [paperBuy, if_neg h1, if_neg h2] at htp
          rcases mem_setPos htp with h | h
          · have hprev : 0 ≤ prevSharesOf (lookupPos st.positions tok) := by
              cases hl : lookupPos st.positions tok with
              | none => simp [prevSharesOf]
              | some q =>
                have := hpos _ (lookupPos_mem hl)
                simp only [prevSharesOf]
                exact le_of_lt this
            rw [h]
            simpa using by linarith
          · exact hpos _ h
  cases op with
  | entryBuy tok px sh => exact buyCase tok px sh
  | scaleBuy tok px sh => exact buyCase tok px sh
  | exitSell tok px =>
    simp only [LedgerOp.opPrice] at hp
    cases hl : lookupPos st.positions tok with
    | none =>
      constructor
      · simp only [ledgerStep, paperSell, hl]
        simpa using hcash
      · intro tp htp
        simp only [ledgerStep, paperSell, hl] at htp
        exact hpos _ htp
    | some q =>
      have hq : 0 < q.shares := hpos _ (lookupPos_mem hl)
      constructor
      · simp only [ledgerStep, paperSell, hl]
        have : 0 ≤ px * q.shares := mul_nonneg hp (le_of_lt hq)
        simpa using by linarith
      · intro tp htp
        simp only [ledgerStep, paperSell, hl] at htp
        exact hpos _ (mem_removePos htp)
  | autoSell tok px =>
    simp only [LedgerOp.opPrice] at hp
    cases hl : lookupPos st.positions tok with
    | none =>
      simpa [ledgerStep, paperAutoSell, hl] using ⟨hcash, hpos⟩
    | some q =>
      have hq : 0 < q.shares := hpos _ (lookupPos_mem hl)
      constructor
      · simp only [ledgerStep, paperAutoSell, hl, if_neg (not_le.2 hq)]
        have : 0 ≤ px * q.shares := mul_nonneg hp (le_of_lt hq)
        simpa using by linarith
      · intro tp htp
        simp only [ledgerStep, paperAutoSell, hl, if_neg (not_le.2 hq)] at htp
        exact hpos _ (mem_removePos htp)

/-- Running any sequence of non-negative-price operations preserves the
ledger invariant. -/
theorem ledgerRun_inv (ops : List LedgerOp) (st : LedgerState) (hInv : LedgerInv st)
    (hp : ∀ op ∈ ops, 0 ≤ op.opPrice) : LedgerInv (ledgerRun st ops) := by
  induction ops generalizing st with
  | nil => simpa [ledgerRun] using hInv
  | cons op rest ih =>
    have h1 := ledgerStep_inv st op hInv (hp op (List.mem_cons_self _ _))
    have h2 : ∀ o ∈ rest, 0 ≤ o.opPrice := fun o ho => hp o (List.mem_cons_of_mem _ ho)
    simpa [ledgerRun] using ih (ledgerStep st op) h1 h2

/-- C1 counterexample: starting from a non-negative cash balance (one
dollar), a single paper entry whose notional is `cash + 1e-9` passes the
`paper_cash + 1e-9 < notional` guard and leaves the ledger cash strictly
negative, so cash does not stay non-negative at all times. -/
theorem C1_counterexample :
    (0 : ℚ) ≤ ledgerOneDollar.cash ∧
      (ledgerRun ledgerOneDollar [.entryBuy "tokA" 1 (1 + ledgerEps)]).cash < 0 := by
  constructor
  · norm_num [ledgerOneDollar]
  · norm_num [ledgerRun, ledgerStep, ledgerOneDollar, paperBuy, ledgerEps, List.foldl]

/-- C1 amended: for every operation sequence with non-negative prices from a
non-negative all-cash start, the cash stays above `-1e-9` (the guard
tolerance) and every share count stays strictly positive; a SELL (exit or
auto-settlement) never redefines any stored position — it only removes one —
and a filled BUY redefines the average entry to
`(prev_shares*prev_avg + shares*fill)/max(prev_shares+shares, 1e-9)`, which
is the size-weighted running average whenever the new share total is at
least `1e-9`. -/
theorem C1_ledger_invariants_amended :
    (∀ (st₀ : LedgerState) (ops : List LedgerOp),
        0 ≤ st₀.cash → st₀.positions = [] → (∀ op ∈ ops, 0 ≤ op.opPrice) →
        -ledgerEps ≤ (ledgerRun st₀ ops).cash ∧
          ∀ tp ∈ (ledgerRun st₀ ops).positions, 0 < (Prod.snd tp).shares) ∧
    (∀ (st : LedgerState) (tok : String) (px : ℚ),
        ∀ tp ∈ (paperSell st tok px).positions, tp ∈ st.positions) ∧
    (∀ (st : LedgerState) (tok : String) (px : ℚ),
        ∀ tp ∈ (paperAutoSell st tok px).positions, tp ∈ st.positions) ∧
    (∀ (st : LedgerState) (tok : String) (px sh : ℚ),
        (paperBuy st tok px sh).1 = "filled" →
        lookupPos (paperBuy st tok px sh).2.2.positions tok =
          some { shares := prevSharesOf (lookupPos st.positions tok) + sh
                 avgEntry :=
                   (prevSharesOf (lookupPos st.positions tok) *
                       prevAvgOf (lookupPos st.positions tok) px + sh * px) /
                     max (prevSharesOf (lookupPos st.positions tok) + sh) ledgerEps } ∧
          (ledgerEps ≤ prevSharesOf (lookupPos st.positions tok) + sh →
            max (prevSharesOf (lookupPos st.positions tok) + sh) ledgerEps =
              prevSharesOf (lookupPos st.positions tok) + sh)) := by
  refine ⟨?_, ?_, ?_, ?_⟩
  · intro st₀ ops h0 hemp hp
    have hInv : LedgerInv st₀ := by
      constructor
      · have : (0 : ℚ) < ledgerEps := by norm_num [ledgerEps]
        linarith
      · intro tp htp
        rw [hemp] at htp
        simp at htp
    exact ledgerRun_inv ops st₀ hInv hp
  · intro st tok px tp htp
    cases hl : lookupPos st.positions tok with
    | none =>
      simp only [paperSell, hl] at htp
      exact htp
    | some q =>
      simp only [paperSell, hl] at htp
      exact mem_removePos htp
  · intro st tok px tp htp
    cases hl : lookupPos st.positions tok with
    | none =>
      simp only [paperAutoSell, hl] at htp
      exact htp
    | some q =>
      by_cases hq : q.shares ≤ 0
      · simp only [paperAutoSell, hl, if_pos hq] at htp
        exact htp
      · simp only [paperAutoSell, hl, if_neg hq] at htp
        exact mem_removePos htp
  · intro st tok px sh hfill
    by_cases h1 : sh ≤ 0
    · simp [paperBuy, h1] at hfill
    · by_cases h2 : st.cash + ledgerEps < px * sh
      · simp [paperBuy, h1, h2] at hfill
      · constructor
        · simp only [paperBuy, if_neg h1, if_neg h2]
          exact lookupPos_setPos _ _ _
        · intro hge
          exact max_eq_left hge

/-- Witness for C1 at concrete ledgers: a filled half-dollar entry from
$100 cash, a sell and an auto-settlement on a held position, and a filled
scale-in BUY on the held position. -/
theorem C1_witness :
    (-ledgerEps ≤ (ledgerRun ledgerHundred [.entryBuy "tokA" (1 / 2) 10]).cash ∧
      ∀ tp ∈ (ledgerRun ledgerHundred [.entryBuy "tokA" (1 / 2) 10]).positions,
        0 < (Prod.snd tp).shares) ∧
    (∀ tp ∈ (paperSell ledgerWithPosition "tokA" (3 / 5)).positions,
        tp ∈ ledgerWithPosition.positions) ∧
    (∀ tp ∈ (paperAutoSell ledgerWithPosition "tokA" (3 / 5)).positions,
        tp ∈ ledgerWithPosition.positions) ∧
    (lookupPos (paperBuy ledgerWithPosition "tokA" (3 / 5) 10).2.2.positions "tokA" =
        some { shares := prevSharesOf (lookupPos ledgerWithPosition.positions "tokA") + 10
               avgEntry :=
                 (prevSharesOf (lookupPos ledgerWithPosition.positions "tokA") *
                     prevAvgOf (lookupPos ledgerWithPosition.positions "tokA") (3 / 5) +
                   10 * (3 / 5)) /
                   max (prevSharesOf (lookupPos ledgerWithPosition.positions "tokA") + 10)
                     ledgerEps } ∧
      (ledgerEps ≤ prevSharesOf (lookupPos ledgerWithPosition.positions "tokA") + 10 →
        max (prevSharesOf (lookupPos ledgerWithPosition.positions "tokA") + 10) ledgerEps =
          prevSharesOf (lookupPos ledgerWithPosition.positions "tokA") + 10)) :=
  ⟨C1_ledger_invariants_amended.1 ledgerHundred [.entryBuy "tokA" (1 / 2) 10]
      (by norm_num [ledgerHundred]) rfl
      (by
        intro op hop
        rw [List.mem_singleton] at hop
        subst hop
        norm_num [LedgerOp.opPrice]),
    fun tp htp => C1_ledger_invariants_amended.2.1 ledgerWithPosition "tokA" (3 / 5) tp htp,
    fun tp htp => C1_ledger_invariants_amended.2.2.1 ledgerWithPosition "tokA" (3 / 5) tp htp,
    C1_ledger_invariants_amended.2.2.2 ledgerWithPosition "tokA" (3 / 5) 10
      (by norm_num [paperBuy, ledgerWithPosition, ledgerEps])⟩

/-- C2 counterexample: with cash 100 the entry notional `100 + 1e-9`
strictly exceeds the cash balance, yet the order is filled (not rejected
with `insufficient_cash`) and the ledger cash is mutated below its previous
value. -/
theorem C2_counterexample :
    ledgerHundred.cash < 1 * (100 + ledgerEps) ∧
      (paperBuy ledgerHundred "tokA" 1 (100 + ledgerEps)).1 = "filled" ∧
      (paperBuy ledgerHundred "tokA" 1 (100 + ledgerEps)).2.2.cash < ledgerHundred.cash := by
  refine ⟨by norm_num [ledgerHundred, ledgerEps], ?_, ?_⟩
  · norm_num [paperBuy, ledgerHundred, ledgerEps]
  · norm_num [paperBuy, ledgerHundred, ledgerEps]

/-- C2 amended: a paper entry with non-positive size is rejected with reason
`size_zero` and mutates nothing; a paper entry whose notional exceeds
`cash + 1e-9` is rejected with reason `insufficient_cash` and mutates
nothing (within the `1e-9` tolerance above cash the source fills the
order). -/
theorem C2_entry_rejection_amended (st : LedgerState) (tok : String) (px sh : ℚ) :
    (sh ≤ 0 → paperBuy st tok px sh = ("rejected", "size_zero", st)) ∧
    (0 < sh → st.cash + ledgerEps < px * sh →
      paperBuy st tok px sh = ("rejected", "insufficient_cash", st)) := by
  constructor
  · intro h
    simp [paperBuy, h]
  · intro h1 h2
    simp [paperBuy, not_le.2 h1, h2]

/-- Witness for C2: the spec's example — cash 100, fill price 0.40, 300
desired shares (notional 120) — is rejected with `insufficient_cash` and
the ledger is unchanged; a zero-size order is rejected with `size_zero`. -/
theorem C2_witness :
    paperBuy ledgerHundred "tokA" (2 / 5) 300 = ("rejected", "insufficient_cash", ledgerHundred) ∧
      paperBuy ledgerHundred "tokA" (2 / 5) 0 = ("rejected", "size_zero", ledgerHundred) :=
  ⟨(C2_entry_rejection_amended ledgerHundred "tokA" (2 / 5) 300).2 (by norm_num)
      (by norm_num [ledgerHundred, ledgerEps]),
    (C2_entry_rejection_amended ledgerHundred "tokA" (2 / 5) 0).1 le_rfl⟩

/-- C4: with no venue minimum order size, the sizer returns, for a non-empty
relevant side: best = top-of-book price, band = levels within the slippage
cap of best, band notional = sum of price*size over the band,
suggested_usd = min(hard_cap, band_notional * max_fraction) and
suggested_shares = suggested_usd / best (0 if best ≤ 0); an empty relevant
side is a failure.  When the side is sorted (asks ascending), the
top-of-book price is the best price of the side. -/
theorem C4_sizer_formulas (book : Book) (cap frac hard : ℚ)
    (hmin : book.minOrderSize = none) :
    (∀ a rest, book.asks = a :: rest →
      sizeMaxTrade book .BUY cap frac hard =
        .ok { bestPrice := a.price
              bandLimitPrice := a.price + cap
              liquiditySharesInBand :=
                (sumUsdc (book.asks.filter fun lv => lv.price ≤ a.price + cap)).1
              liquidityUsdcInBand :=
                (sumUsdc (book.asks.filter fun lv => lv.price ≤ a.price + cap)).2
              suggestedMaxUsdc :=
                min hard ((sumUsdc (book.asks.filter fun lv => lv.price ≤ a.price + cap)).2 * frac)
              suggestedMaxShares :=
                if a.price ≤ 0 then 0
                else
                  min hard
                      ((sumUsdc (book.asks.filter fun lv => lv.price ≤ a.price + cap)).2 * frac) /
                    a.price }) ∧
    (book.asks = [] →
      sizeMaxTrade book .BUY cap frac hard = .error "No asks in book (cannot BUY).") ∧
    (∀ b rest, book.bids = b :: rest → (∀ lv ∈ book.bids, 0 ≤ lv.price) →
      sizeMaxTrade book .SELL cap frac hard =
        .ok { bestPrice := b.price
              bandLimitPrice := max 0 (b.price - cap)
              liquiditySharesInBand :=
                (sumUsdc (book.bids.filter fun lv => b.price - cap ≤ lv.price)).1
              liquidityUsdcInBand :=
                (sumUsdc (book.bids.filter fun lv => b.price - cap ≤ lv.price)).2
              suggestedMaxUsdc :=
                min hard ((sumUsdc (book.bids.filter fun lv => b.price - cap ≤ lv.price)).2 * frac)
              suggestedMaxShares :=
                if b.price ≤ 0 then 0
                else
                  min hard
                      ((sumUsdc (book.bids.filter fun lv => b.price - cap ≤ lv.price)).2 * frac) /
                    b.price }) ∧
    (book.bids = [] →
      sizeMaxTrade book .SELL cap frac hard = .error "No bids in book (cannot SELL).") ∧
    (∀ a rest, book.asks = a :: rest → (book.asks.Pairwise fun x y => x.price ≤ y.price) →
      ∀ lv ∈ book.asks, a.price ≤ lv.price) := by
  refine ⟨?_, ?_, ?_, ?_, ?_⟩
  · intro a rest h
    simp [sizeMaxTrade, h, hmin]
  · intro h
    simp [sizeMaxTrade, h]
  · intro b rest h hp
    have hfilt :
        (book.bids.filter fun lv => max 0 (b.price - cap) ≤ lv.price) =
          book.bids.filter fun lv => b.price - cap ≤ lv.price := by
      apply List.filter_congr
      intro lv hlv
      have h0 := hp lv hlv
      simp only [decide_eq_decide]
      constructor
      · intro hle
        exact le_trans (le_max_right _ _) hle
      · intro hle
        exact max_le h0 hle
    rw [← hfilt]
    simp [sizeMaxTrade, h, hmin]
  · intro h
    simp [sizeMaxTrade, h]
  · intro a rest h hsort lv hlv
    rw [h] at hsort hlv
    rcases List.mem_cons.1 hlv with hlv | hlv
    · rw [hlv]
    · exact (List.pairwise_cons.1 hsort).1 lv hlv

/-- Witness for C4 at the spec's sizing example: asks
`[(0.50, 100), (0.51, 200)]`, slippage cap 0.01, max fraction 0.10, hard cap
1000 give band notional 152, suggested USD 15.2 and suggested shares 30.4;
the empty bid side makes a SELL fail. -/
theorem C4_witness :
    sizeMaxTrade exampleBook .BUY (1 / 100) (1 / 10) 1000 =
      .ok { bestPrice := 1 / 2
            bandLimitPrice := 51 / 100
            liquiditySharesInBand := 300
            liquidityUsdcInBand := 152
            suggestedMaxUsdc := 76 / 5
            suggestedMaxShares := 152 / 5 } ∧
      sizeMaxTrade exampleBook .SELL (1 / 100) (1 / 10) 1000 =
        .error "No bids in book (cannot SELL)." := by
  constructor
  · have h := (C4_sizer_formulas exampleBook (1 / 100) (1 / 10) 1000 rfl).1
      { price := 1 / 2, size := 100 } [{ price := 51 / 100, size := 200 }] rfl
    rw [h]
    norm_num [exampleBook, sumUsdc, List.filter]
  · exact (C4_sizer_formulas exampleBook (1 / 100) (1 / 10) 1000 rfl).2.2.2.1 rfl

/-- Inversion of the pair evaluation: an emitted edge records the pair, its
profit formulas, the strict deadline order and the strict profit
threshold. -/
theorem evalPair_some {base : String} {minp : ℚ} {pr : MarketRow × MarketRow}
    {e : DeadlineEdge} (h : evalPair base minp pr = some e) :
    e.base = base ∧ e.early = pr.1 ∧ e.late = pr.2 ∧
      pr.1.endDate < pr.2.endDate ∧ minp < e.guaranteedProfit ∧
      e.guaranteedProfit = pr.1.yesBid - pr.2.yesAsk ∧
      e.betweenDeadlinesProfit = e.guaranteedProfit + 1 := by
  simp only [evalPair] at h
  split_ifs at h with h1 h2
  rw [Option.some_inj] at h
  subst h
  exact ⟨rfl, rfl, rfl, lt_of_not_le h1, lt_of_not_le h2, rfl, rfl⟩

/-- Unfolding the per-group accumulation loop of `_find_edges`. -/
theorem mem_findEdges_foldl (l : List (String × List MarketRow)) (minp : ℚ)
    (acc : List DeadlineEdge) (e : DeadlineEdge)
    (h : e ∈ l.foldl
      (fun acc bg =>
        if bg.2.length < 2 then acc
        else acc ++ (adjacentPairs (sortGroup bg.2)).filterMap (evalPair bg.1 minp))
      acc) :
    e ∈ acc ∨ ∃ bg ∈ l, ¬ bg.2.length < 2 ∧
      e ∈ (adjacentPairs (sortGroup bg.2)).filterMap (evalPair bg.1 minp) := by
  induction l generalizing acc with
  | nil => exact Or.inl h
  | cons hd tl ih =>
    rw [List.foldl_cons] at h
    rcases ih _ h with h | ⟨bg, hbg, hlen, hmem⟩
    · by_cases hl : hd.2.length < 2
      · rw [if_pos hl] at h
        exact Or.inl h
      · rw [if_neg hl] at h
        rcases List.mem_append.1 h with h | h
        · exact Or.inl h
        · exact Or.inr ⟨hd, List.mem_cons_self _ _, hl, h⟩
    · exact Or.inr ⟨bg, List.mem_cons_of_mem _ hbg, hlen, hmem⟩

/-- C5: every edge reported by the ladder scanner comes from an adjacent
pair of the end_date-ascending sorted order of a base-key group with at
least two members, has a strictly later late deadline, satisfies
`guaranteed_profit = early.yes_bid - late.yes_ask` and
`between_deadlines_profit = guaranteed_profit + 1`, and strictly exceeds
the configured minimum profit. -/
theorem C5_ladder_scanner (baseOf : MarketRow → String) (rows : List MarketRow)
    (minp : ℚ) (e : DeadlineEdge) (he : e ∈ findEdges baseOf rows minp) :
    e.guaranteedProfit = e.early.yesBid - e.late.yesAsk ∧
      e.betweenDeadlinesProfit = e.guaranteedProfit + 1 ∧
      minp < e.guaranteedProfit ∧
      e.early.endDate < e.late.endDate ∧
      ∃ g, (e.base, g) ∈ groupByBase baseOf rows ∧ 2 ≤ g.length ∧
        (sortGroup g).Sorted endDateLe ∧ (e.early, e.late) ∈ adjacentPairs (sortGroup g) := by
  simp only [findEdges] at he
  rw [(List.perm_insertionSort profitGe _).mem_iff] at he
  rcases mem_findEdges_foldl _ _ _ _ he with h | ⟨bg, hbg, hlen, hmem⟩
  · simp at h
  · rcases List.mem_filterMap.1 hmem with ⟨pr, hpr, hev⟩
    obtain ⟨hb, he1, he2, hdate, hgt, hgp, hbt⟩ := evalPair_some hev
    refine ⟨by rw [hgp, he1, he2], hbt, hgt, by rw [he1, he2]; exact hdate, bg.2, ?_, ?_, ?_, ?_⟩
    · rw [hb]
      exact hbg
    · omega
    · exact List.sorted_insertionSort endDateLe bg.2
    · rw [he1, he2]
      exact hpr

/-- Witness for C5 at the spec's ladder example (yes_bid 0.60 vs yes_ask
0.55, deadlines 1 < 2, minimum profit 0.002): the scanner emits exactly the
edge with guaranteed profit 0.05 and between-deadlines profit 1.05, and that
edge satisfies all the reported properties. -/
theorem C5_witness :
    ladderEdgeFound ∈ findEdges ladderBaseOf [ladderEarly, ladderLate] (1 / 500) ∧
      ladderEdgeFound.guaranteedProfit =
        ladderEdgeFound.early.yesBid - ladderEdgeFound.late.yesAsk ∧
      ladderEdgeFound.betweenDeadlinesProfit = ladderEdgeFound.guaranteedProfit + 1 ∧
      (1 : ℚ) / 500 < ladderEdgeFound.guaranteedProfit ∧
      ladderEdgeFound.early.endDate < ladderEdgeFound.late.endDate ∧
      ∃ g, (ladderEdgeFound.base, g) ∈ groupByBase ladderBaseOf [ladderEarly, ladderLate] ∧
        2 ≤ g.length ∧ (sortGroup g).Sorted endDateLe ∧
        (ladderEdgeFound.early, ladderEdgeFound.late) ∈ adjacentPairs (sortGroup g) := by
  have hmem : ladderEdgeFound ∈ findEdges ladderBaseOf [ladderEarly, ladderLate] (1 / 500) := by
    have hne : ¬ (("event" : String) = "") := by decide
    norm_num [findEdges, groupByBase, appendToGroup, sortGroup, adjacentPairs, evalPair,
      ladderBaseOf, ladderEarly, ladderLate, ladderEdgeFound, List.insertionSort,
      List.orderedInsert, endDateLe, profitGe, List.filterMap, hne]
  have h := C5_ladder_scanner ladderBaseOf [ladderEarly, ladderLate] (1 / 500)
    ladderEdgeFound hmem
  exact ⟨hmem, h.1, h.2.1, h.2.2.1, h.2.2.2.1, h.2.2.2.2⟩

/-- The embedded normal CDF lies in `[0, 1]`. -/
theorem normCdf_mem_Icc (x : ℝ) : 0 ≤ normCdf x ∧ normCdf x ≤ 1 :=
  ⟨ProbabilityTheory.cdf_nonneg _ x, ProbabilityTheory.cdf_le_one _ x⟩

/-- On all-positive inputs the probability-above-strike function returns a
probability without failing. -/
theorem probAbove_ok {f k s t : ℝ} (hf : 0 < f) (hk : 0 < k) (hs : 0 < s) (ht : 0 < t) :
    ∃ p, riskNeutralProbAboveStrike f k s t = .ok p ∧ 0 ≤ p ∧ p ≤ 1 := by
  have h1 : ¬ (f ≤ 0 ∨ k ≤ 0) := by
    push_neg
    exact ⟨hf, hk⟩
  rw [riskNeutralProbAboveStrike, if_neg h1, if_neg (not_le.2 hs), if_neg (not_le.2 ht)]
  exact ⟨_, rfl, (normCdf_mem_Icc _).1, (normCdf_mem_Icc _).2⟩

/-- On all-positive inputs the upper-barrier touch probability returns a
probability without failing. -/
theorem touchAbove_ok {f k s t : ℝ} (d : ℝ) (hf : 0 < f) (hk : 0 < k) (hs : 0 < s)
    (ht : 0 < t) :
    ∃ p, riskNeutralProbTouchAboveStrike f k s t d = .ok p ∧ 0 ≤ p ∧ p ≤ 1 := by
  have h1 : ¬ (f ≤ 0 ∨ k ≤ 0) := by
    push_neg
    exact ⟨hf, hk⟩
  by_cases hb : k ≤ f
  · rw [riskNeutralProbTouchAboveStrike, if_neg h1, if_neg (not_le.2 hs),
      if_neg (not_le.2 ht), if_pos hb]
    exact ⟨1, rfl, by norm_num, le_refl 1⟩
  · rw [riskNeutralProbTouchAboveStrike, if_neg h1, if_neg (not_le.2 hs),
      if_neg (not_le.2 ht), if_neg hb]
    exact ⟨_, rfl, le_max_left _ _, max_le (by norm_num) (min_le_left _ _)⟩

/-- On all-positive inputs the lower-barrier touch probability returns a
probability without failing. -/
theorem touchBelow_ok {f k s t : ℝ} (d : ℝ) (hf : 0 < f) (hk : 0 < k) (hs : 0 < s)
    (ht : 0 < t) :
    ∃ p, riskNeutralProbTouchBelowStrike f k s t d = .ok p ∧ 0 ≤ p ∧ p ≤ 1 := by
  have h1 : ¬ (f ≤ 0 ∨ k ≤ 0) := by
    push_neg
    exact ⟨hf, hk⟩
  by_cases hb : f ≤ k
  · rw [riskNeutralProbTouchBelowStrike, if_neg h1, if_neg (not_le.2 hs),
      if_neg (not_le.2 ht), if_pos hb]
    exact ⟨1, rfl, by norm_num, le_refl 1⟩
  · rw [riskNeutralProbTouchBelowStrike, if_neg h1, if_neg (not_le.2 hs),
      if_neg (not_le.2 ht), if_neg hb]
    exact ⟨_, rfl, le_max_left _ _, max_le (by norm_num) (min_le_left _ _)⟩

/-- With some non-positive input the probability-above-strike function
fails. -/
theorem probAbove_error {f k s t : ℝ} (h : f ≤ 0 ∨ k ≤ 0 ∨ s ≤ 0 ∨ t ≤ 0) :
    ∃ msg, riskNeutralProbAboveStrike f k s t = .error msg := by
  by_cases h1 : f ≤ 0 ∨ k ≤ 0
  · rw [riskNeutralProbAboveStrike, if_pos h1]
    exact ⟨_, rfl⟩
  · by_cases h2 : s ≤ 0
    · rw [riskNeutralProbAboveStrike, if_neg h1, if_pos h2]
      exact ⟨_, rfl⟩
    · have h3 : t ≤ 0 := by tauto
      rw [riskNeutralProbAboveStrike, if_neg h1, if_neg h2, if_pos h3]
      exact ⟨_, rfl⟩

/-- With some non-positive input the upper-barrier touch probability
fails. -/
theorem touchAbove_error {f k s t : ℝ} (d : ℝ) (h : f ≤ 0 ∨ k ≤ 0 ∨ s ≤ 0 ∨ t ≤ 0) :
    ∃ msg, riskNeutralProbTouchAboveStrike f k s t d = .error msg := by
  by_cases h1 : f ≤ 0 ∨ k ≤ 0
  · rw [riskNeutralProbTouchAboveStrike, if_pos h1]
    exact ⟨_, rfl⟩
  · by_cases h2 : s ≤ 0
    · rw [riskNeutralProbTouchAboveStrike, if_neg h1, if_pos h2]
      exact ⟨_, rfl⟩
    · have h3 : t ≤ 0 := by tauto
      rw [riskNeutralProbTouchAboveStrike, if_neg h1, if_neg h2, if_pos h3]
      exact ⟨_, rfl⟩

/-- With some non-positive input the lower-barrier touch probability
fails. -/
theorem touchBelow_error {f k s t : ℝ} (d : ℝ) (h : f ≤ 0 ∨ k ≤ 0 ∨ s ≤ 0 ∨ t ≤ 0) :
    ∃ msg, riskNeutralProbTouchBelowStrike f k s t d = .error msg := by
  by_cases h1 : f ≤ 0 ∨ k ≤ 0
  · rw [riskNeutralProbTouchBelowStrike, if_pos h1]
    exact ⟨_, rfl⟩
  · by_cases h2 : s ≤ 0
    · rw [riskNeutralProbTouchBelowStrike, if_neg h1, if_pos h2]
      exact ⟨_, rfl⟩
    · have h3 : t ≤ 0 := by tauto
      rw [riskNeutralProbTouchBelowStrike, if_neg h1, if_neg h2, if_pos h3]
      exact ⟨_, rfl⟩

/-- C8: the probability-above-strike function fails (raises) exactly when
some of forward, strike, sigma, t_years is non-positive, and on all-positive
inputs returns a probability in `[0, 1]` without failing; the barrier-touch
functions behave the same way in spot, barrier, sigma, t_years. -/
theorem C8_prob_input_contract (f k s t d : ℝ) :
    (0 < f ∧ 0 < k ∧ 0 < s ∧ 0 < t →
      (∃ p, riskNeutralProbAboveStrike f k s t = .ok p ∧ 0 ≤ p ∧ p ≤ 1) ∧
      (∃ p, riskNeutralProbTouchAboveStrike f k s t d = .ok p ∧ 0 ≤ p ∧ p ≤ 1) ∧
      (∃ p, riskNeutralProbTouchBelowStrike f k s t d = .ok p ∧ 0 ≤ p ∧ p ≤ 1)) ∧
    (f ≤ 0 ∨ k ≤ 0 ∨ s ≤ 0 ∨ t ≤ 0 →
      (∃ msg, riskNeutralProbAboveStrike f k s t = .error msg) ∧
      (∃ msg, riskNeutralProbTouchAboveStrike f k s t d = .error msg) ∧
      (∃ msg, riskNeutralProbTouchBelowStrike f k s t d = .error msg)) := by
  constructor
  · rintro ⟨hf, hk, hs, ht⟩
    exact ⟨probAbove_ok hf hk hs ht, touchAbove_ok d hf hk hs ht, touchBelow_ok d hf hk hs ht⟩
  · intro h
    exact ⟨probAbove_error h, touchAbove_error d h, touchBelow_error d h⟩

/-- Witness for C8: at forward=100, strike=100, sigma=0.5, t=1 all three
functions return a probability, and at forward=0 all three fail. -/
theorem C8_witness :
    ((∃ p, riskNeutralProbAboveStrike 100 100 (1 / 2) 1 = .ok p ∧ 0 ≤ p ∧ p ≤ 1) ∧
      (∃ p, riskNeutralProbTouchAboveStrike 100 100 (1 / 2) 1 0 = .ok p ∧ 0 ≤ p ∧ p ≤ 1) ∧
      (∃ p, riskNeutralProbTouchBelowStrike 100 100 (1 / 2) 1 0 = .ok p ∧ 0 ≤ p ∧ p ≤ 1)) ∧
    ((∃ msg, riskNeutralProbAboveStrike 0 100 (1 / 2) 1 = .error msg) ∧
      (∃ msg, riskNeutralProbTouchAboveStrike 0 100 (1 / 2) 1 0 = .error msg) ∧
      (∃ msg, riskNeutralProbTouchBelowStrike 0 100 (1 / 2) 1 0 = .error msg)) :=
  ⟨(C8_prob_input_contract 100 100 (1 / 2) 1 0).1 (by norm_num),
    (C8_prob_input_contract 0 100 (1 / 2) 1 0).2 (Or.inl (by norm_num))⟩

/-- C10: every estimate returned by the market-lag estimator has, when
`ok` is true, non-null lag_ms (non-negative), lag_points, dt_ms (strictly
positive) and best_corr with a null reason; and when `ok` is false a
non-null reason string. -/
theorem C10_lag_estimate_result_invariant (hOpt : Option PriceHistory) (mlp : ℤ)
    (minPts mcp : ℕ) (mac mcg : ℝ) (e : MarketLagEstimate)
    (he : e = estimateMarketLag hOpt mlp minPts mcp mac mcg) :
    (e.ok = true →
      (∃ l, e.lagMs = some l ∧ 0 ≤ l) ∧ e.lagPoints ≠ none ∧
        (∃ dt, e.dtMs = some dt ∧ 0 < dt) ∧ e.bestCorr ≠ none ∧ e.reason = none) ∧
    (e.ok = false → e.reason ≠ none) := by
  subst he
  cases hOpt with
  | none => simp [estimateMarketLag]
  | some h =>
    simp only [estimateMarketLag]
    split_ifs with h1 h2 h3 h4 h5
    · simp
    · simp
    · simp
    · simp
    · simp
    · rcases hbl : (scanAll mcp (max 0 mlp).toNat (sRetOf h) (pRetOf h)).bestLag with _ | bl
      · simp [hbl]
      · rcases hbc : (scanAll mcp (max 0 mlp).toNat (sRetOf h) (pRetOf h)).bestC with _ | bc
        · simp [hbl, hbc]
        · simp only [hbl, hbc]
          by_cases hok : mac ≤ |bc| ∧
            (Option.map (fun sc => bc - sc)
                (scanAll mcp (max 0 mlp).toNat (sRetOf h) (pRetOf h)).secondC = none ∨
              ∃ g, Option.map (fun sc => bc - sc)
                  (scanAll mcp (max 0 mlp).toNat (sRetOf h) (pRetOf h)).secondC = some g ∧
                mcg ≤ g)
          · constructor
            · intro _
              refine ⟨⟨_, rfl, ?_⟩, by simp, ⟨_, rfl, lt_of_not_le h4⟩, by simp, if_pos hok⟩
              exact mul_nonneg (Nat.cast_nonneg bl) (le_of_lt (lt_of_not_le h4))
            · intro hfalse
              rw [decide_eq_true hok] at hfalse
              exact absurd hfalse (by simp)
          · constructor
            · intro htrue
              exact absurd (of_decide_eq_true htrue) hok
            · intro _
              rw [if_neg hok]
              split_ifs <;> simp

/-- Witness for C10 at the unknown-key (`no_history`) estimate. -/
theorem C10_witness :
    ((estimateMarketLag none 20 30 10 (1 / 5) (1 / 20)).ok = true →
      (∃ l, (estimateMarketLag none 20 30 10 (1 / 5) (1 / 20)).lagMs = some l ∧ 0 ≤ l) ∧
        (estimateMarketLag none 20 30 10 (1 / 5) (1 / 20)).lagPoints ≠ none ∧
        (∃ dt, (estimateMarketLag none 20 30 10 (1 / 5) (1 / 20)).dtMs = some dt ∧ 0 < dt) ∧
        (estimateMarketLag none 20 30 10 (1 / 5) (1 / 20)).bestCorr ≠ none ∧
        (estimateMarketLag none 20 30 10 (1 / 5) (1 / 20)).reason = none) ∧
    ((estimateMarketLag none 20 30 10 (1 / 5) (1 / 20)).ok = false →
      (estimateMarketLag none 20 30 10 (1 / 5) (1 / 20)).reason ≠ none) :=
  C10_lag_estimate_result_invariant none 20 30 10 (1 / 5) (1 / 20) _ rfl

/-- Length of a list suffix. -/
theorem lastN_length (l : List (ℝ × ℝ)) (n : ℕ) :
    (lastN l n).length = l.length - (l.length - n) := by
  simp [lastN]

/-- A suffix member is a member. -/
theorem mem_lastN {l : List (ℝ × ℝ)} {n : ℕ} {x : ℝ × ℝ} (hx : x ∈ lastN l n) : x ∈ l :=
  List.mem_of_mem_drop hx

/-- One return per consecutive price pair. -/
theorem retsOf_length (l : List (ℝ × ℝ)) : (retsOf l).length = l.length - 1 := by
  simp only [retsOf, List.length_map, List.length_zip, List.length_tail]
  omega

/-- Length of the timestamp list. -/
theorem tsListOf_length (h : PriceHistory) :
    (tsListOf h).length = (spotWindow h).length - 1 := by
  simp [tsListOf]

/-- One gap per consecutive timestamp pair. -/
theorem diffs_length (l : List ℝ) : (diffs l).length = l.length - 1 := by
  simp only [diffs, List.length_map, List.length_zip, List.length_tail]
  omega

/-- A constant price list yields an all-zero return series. -/
theorem retsOf_const {l : List (ℝ × ℝ)} {c : ℝ} (h : ∀ p ∈ l, p.2 = c) :
    ∀ x ∈ retsOf l, x = 0 := by
  intro x hx
  rcases List.mem_map.1 hx with ⟨ab, hab, rfl⟩
  obtain ⟨h1, h2⟩ := List.of_mem_zip hab
  have e1 : ab.1.2 = c := h _ h1
  have e2 : ab.2.2 = c := h _ (List.mem_of_mem_tail h2)
  rw [pctChange, e1, e2]
  by_cases hc : c = 0
  · rw [if_pos hc]
  · rw [if_neg hc, div_self hc]
    ring

/-- The sample standard deviation of an all-zero series is zero. -/
theorem stdOf_zero {xs : List ℝ} (h : ∀ x ∈ xs, x = 0) : stdOf xs = 0 := by
  by_cases hxs : xs = []
  · simp [stdOf, hxs]
  · have hsum : xs.sum = 0 := List.sum_eq_zero h
    have hsq : (xs.map fun x => (x - xs.sum / xs.length) * (x - xs.sum / xs.length)).sum = 0 := by
      apply List.sum_eq_zero
      intro y hy
      rcases List.mem_map.1 hy with ⟨x, hx, rfl⟩
      rw [h x hx, hsum, zero_div, sub_zero, mul_zero]
    simp only [stdOf, if_neg hxs, hsq, zero_div]
    rw [if_neg (lt_irrefl 0)]

/-- Every consecutive pair of a strictly increasing list is increasing. -/
theorem zip_tail_lt : ∀ (l : List ℝ), l.Pairwise (· < ·) →
    ∀ ab ∈ l.zip l.tail, ab.1 < ab.2 := by
  intro l
  induction l with
  | nil => intro _ ab hab; simp at hab
  | cons a t ih =>
    intro hp ab hab
    cases t with
    | nil => simp at hab
    | cons b t' =>
      rcases List.mem_cons.1 hab with hab | hab
      · rw [hab]
        exact (List.pairwise_cons.1 hp).1 b (List.mem_cons_self _ _)
      · exact ih (List.pairwise_cons.1 hp).2 ab hab

/-- The gaps of a strictly increasing timestamp list are positive. -/
theorem diffs_pos {l : List ℝ} (h : l.Pairwise (· < ·)) : ∀ d ∈ diffs l, 0 < d := by
  intro d hd
  rcases List.mem_map.1 hd with ⟨ab, hab, rfl⟩
  have := zip_tail_lt l h ab hab
  linarith

/-- The median inter-sample gap of a strictly increasing timestamp list is
positive. -/
theorem dtMsOf_pos {h : PriceHistory} (hp : (tsListOf h).Pairwise (· < ·))
    (hne : dtsOf h ≠ []) : 0 < dtMsOf h := by
  simp only [dtMsOf]
  set s := (dtsOf h).insertionSort (· ≤ ·) with hs
  have hlen : s.length = (dtsOf h).length := (List.perm_insertionSort _ _).length_eq
  have hpos : 0 < s.length := by
    rw [hlen]
    exact List.length_pos.2 hne
  have hidx : s.length / 2 < s.length := Nat.div_lt_self hpos one_lt_two
  rw [List.getD_eq_getElem _ _ hidx]
  have hmem : s[s.length / 2] ∈ s := List.getElem_mem hidx
  have hmem2 : s[s.length / 2] ∈ dtsOf h := (List.perm_insertionSort _ _).subset hmem
  exact diffs_pos hp _ hmem2

/-- The noise estimator returns exactly `0.0` (not an insufficiency marker)
for a constant spot series with enough points. -/
theorem noise_const {h : PriceHistory} {c : ℝ} (hconst : ∀ p ∈ h.spot, p.2 = c)
    (wp mp : ℕ) (hlen : max (mp + 1) 3 ≤ h.spot.length) :
    estimateSpotNoisePct (some h) wp mp = some 0 := by
  simp only [estimateSpotNoisePct]
  rw [if_neg (not_lt.2 hlen)]
  set rets := retsOf (lastN h.spot (min h.spot.length (max (wp + 1) (mp + 1)))) with hrets
  have hretlen : rets.length = min h.spot.length (max (wp + 1) (mp + 1)) - 1 := by
    rw [hrets, retsOf_length, lastN_length]
    omega
  have hge : ¬ rets.length < mp := by
    rw [hretlen]
    omega
  rw [if_neg hge]
  have hz : ∀ x ∈ rets, x = 0 := by
    rw [hrets]
    exact retsOf_const fun p hp => hconst p (mem_lastN hp)
  have hsum : rets.sum = 0 := List.sum_eq_zero hz
  have hsq : (rets.map fun x => (x - rets.sum / rets.length) * (x - rets.sum / rets.length)).sum
      = 0 := by
    apply List.sum_eq_zero
    intro y hy
    rcases List.mem_map.1 hy with ⟨x, hx, rfl⟩
    rw [hz x hx, hsum, zero_div, sub_zero, mul_zero]
  rw [hsq, zero_div, if_neg (lt_irrefl 0), Real.sqrt_zero]

/-- C7 counterexample: on an eleven-point constant history the noise
estimator returns the value `0.0` instead of a low-variance/insufficient
result. -/
theorem C7_counterexample : estimateSpotNoisePct (some flatHist) 40 10 = some 0 :=
  @noise_const flatHist 100 (by simp [flatHist]) 40 10 (by norm_num [flatHist])

/-- C7 amended: for a spot- or pm-constant history with at least
`max(min_points, 4)` prices and strictly increasing timestamps the lag
estimator returns `ok=false` with reason `low_variance` (never a 0 ms lag or
a ±1 correlation); the noise estimator, however, returns the value `0.0`
for a constant spot series with enough points (it reports `none` only when
the history is too short). -/
theorem C7_flat_series_amended :
    (∀ (h : PriceHistory) (c : ℝ) (mlp : ℤ) (minPts mcp : ℕ) (mac mcg : ℝ),
        ((∀ p ∈ h.spot, p.2 = c) ∨ (∀ p ∈ h.pm, p.2 = c)) →
        max minPts 4 ≤ nPricesOf h →
        h.spot.Pairwise (fun a b => a.1 < b.1) →
        (estimateMarketLag (some h) mlp minPts mcp mac mcg).ok = false ∧
          (estimateMarketLag (some h) mlp minPts mcp mac mcg).reason = some "low_variance") ∧
    (∀ (h : PriceHistory) (c : ℝ) (wp mp : ℕ),
        (∀ p ∈ h.spot, p.2 = c) → max (mp + 1) 3 ≤ h.spot.length →
        estimateSpotNoisePct (some h) wp mp = some 0) := by
  constructor
  · intro h c mlp minPts mcp mac mcg hconst hlen hts
    have hnp : nPricesOf h ≤ h.spot.length := min_le_left _ _
    have hnpm : nPricesOf h ≤ h.pm.length := min_le_right _ _
    have hsw : (spotWindow h).length = nPricesOf h := by
      rw [spotWindow, lastN_length]
      omega
    have hpw : (pmWindow h).length = nPricesOf h := by
      rw [pmWindow, lastN_length]
      omega
    have hsr : (sRetOf h).length = nPricesOf h - 1 := by
      rw [sRetOf, retsOf_length, hsw]
    have g1 : ¬ nPricesOf h < max minPts 3 := by omega
    have g2 : ¬ (sRetOf h).length < max (minPts - 1) 3 := by
      rw [hsr]
      omega
    have hts2 : (tsListOf h).Pairwise (· < ·) := by
      rw [tsListOf, List.pairwise_map]
      have hsub : List.Sublist ((spotWindow h).drop 1) h.spot :=
        (List.drop_sublist 1 (spotWindow h)).trans
          (List.drop_sublist (h.spot.length - nPricesOf h) h.spot)
      exact hts.sublist hsub
    have g3 : dtsOf h ≠ [] := by
      apply List.ne_nil_of_length_pos
      rw [dtsOf, diffs_length, tsListOf_length, hsw]
      omega
    have g4 : ¬ dtMsOf h ≤ 0 := not_le.2 (dtMsOf_pos hts2 g3)
    have g5 : stdOf (sRetOf h) < 1 / 1000000000 ∨ stdOf (pRetOf h) < 1 / 1000000000 := by
      rcases hconst with hc | hc
      · left
        rw [sRetOf, spotWindow, stdOf_zero (retsOf_const fun p hp => hc p (mem_lastN hp))]
        norm_num
      · right
        rw [pRetOf, pmWindow, stdOf_zero (retsOf_const fun p hp => hc p (mem_lastN hp))]
        norm_num
    have hres : estimateMarketLag (some h) mlp minPts mcp mac mcg =
        ⟨false, none, some ((sRetOf h).length : ℤ), some (dtMsOf h), none, none, none,
          some "low_variance"⟩ := by
      simp only [estimateMarketLag]
      rw [if_neg g1, if_neg g2, if_neg g3, if_neg g4, if_pos g5]
    rw [hres]
    exact ⟨rfl, rfl⟩
  · intro h c wp mp hconst hlen
    exact noise_const hconst wp mp hlen

/-- Witness for C7 at the eleven-point constant history with
min_points = 4: the lag estimator reports `low_variance`, the noise
estimator reports `0.0`. -/
theorem C7_witness :
    ((estimateMarketLag (some flatHist) 20 4 10 (1 / 5) (1 / 20)).ok = false ∧
      (estimateMarketLag (some flatHist) 20 4 10 (1 / 5) (1 / 20)).reason =
        some "low_variance") ∧
    estimateSpotNoisePct (some flatHist) 40 10 = some 0 :=
  ⟨C7_flat_series_amended.1 flatHist 100 20 4 10 (1 / 5) (1 / 20)
      (Or.inl (by simp [flatHist]))
      (by norm_num [nPricesOf, flatHist])
      (by norm_num [flatHist, List.pairwise_cons, List.mem_cons]),
    C7_flat_series_amended.2 flatHist 100 40 10 (by simp [flatHist]) (by norm_num [flatHist])⟩

/-- The synthetic spot return series. -/
theorem synth_sret : sRetOf synthHist = [10, 0, 0, 0, -10, 0, 0, 0, 0] := by
  norm_num [sRetOf, spotWindow, lastN, nPricesOf, synthHist, synthSpot, synthPm, retsOf,
    pctChange]

/-- The synthetic pm return series: the spot returns delayed by three
samples. -/
theorem synth_pret : pRetOf synthHist = [0, 0, 0, 10, 0, 0, 0, -10, 0] := by
  norm_num [pRetOf, pmWindow, lastN, nPricesOf, synthHist, synthSpot, synthPm, retsOf,
    pctChange]

/-- The synthetic inter-sample gaps: eight uniform 5000 ms gaps. -/
theorem synth_dts : dtsOf synthHist = [5000, 5000, 5000, 5000, 5000, 5000, 5000, 5000] := by
  norm_num [dtsOf, tsListOf, spotWindow, lastN, nPricesOf, synthHist, synthSpot, synthPm,
    diffs]

/-- The synthetic median inter-sample gap is 5000 ms. -/
theorem synth_dtMs : dtMsOf synthHist = 5000 := by
  rw [dtMsOf, synth_dts]
  norm_num [List.insertionSort, List.orderedInsert, List.getD]

/-- Square root of 25. -/
theorem sqrt_25 : Real.sqrt 25 = 5 := by
  rw [show (25 : ℝ) = 5 ^ 2 by norm_num]
  exact Real.sqrt_sq (by norm_num)

/-- Product of the square roots of 200 with itself. -/
theorem sqrt200_mul : Real.sqrt 200 * Real.sqrt 200 = 200 :=
  Real.mul_self_sqrt (by norm_num)

/-- Standard deviation of the synthetic spot returns. -/
theorem synth_std_s : stdOf [10, 0, 0, 0, -10, 0, 0, 0, 0] = 5 := by
  norm_num [stdOf, sqrt_25]
  exact List.cons_ne_nil _ _

/-- Standard deviation of the synthetic pm returns. -/
theorem synth_std_p : stdOf [0, 0, 0, 10, 0, 0, 0, -10, 0] = 5 := by
  norm_num [stdOf, sqrt_25]
  exact List.cons_ne_nil _ _

/-- Lag-0 correlation of the synthetic return series. -/
theorem synth_corr0 :
    corr [10, 0, 0, 0, -10, 0, 0, 0, 0] [0, 0, 0, 10, 0, 0, 0, -10, 0] = some 0 := by
  norm_num [corr]

/-- Lag-1 correlation of the synthetic return series. -/
theorem synth_corr1 :
    corr [10, 0, 0, 0, -10, 0, 0, 0] [0, 0, 10, 0, 0, 0, -10, 0] = some 0 := by
  norm_num [corr]

/-- Lag-2 correlation of the synthetic return series. -/
theorem synth_corr2 :
    corr [10, 0, 0, 0, -10, 0, 0] [0, 10, 0, 0, 0, -10, 0] = some 0 := by
  norm_num [corr]

/-- Lag-3 correlation of the synthetic return series: a perfect 1. -/
theorem synth_corr3 :
    corr [10, 0, 0, 0, -10, 0] [10, 0, 0, 0, -10, 0] = some 1 := by
  norm_num [corr, sqrt200_mul]

/-- Scan step at lag 0: correlation 0 becomes the first best. -/
theorem synth_step0 :
    scanStep 6 [10, 0, 0, 0, -10, 0, 0, 0, 0] [0, 0, 0, 10, 0, 0, 0, -10, 0]
      ⟨none, none, none⟩ 0 = ⟨some 0, some 0, none⟩ := by
  norm_num [scanStep, synth_corr0]

/-- Scan step at lag 1: correlation 0 becomes the second best. -/
theorem synth_step1 :
    scanStep 6 [10, 0, 0, 0, -10, 0, 0, 0, 0] [0, 0, 0, 10, 0, 0, 0, -10, 0]
      ⟨some 0, some 0, none⟩ 1 = ⟨some 0, some 0, some 0⟩ := by
  norm_num [scanStep, synth_corr1]

/-- Scan step at lag 2: correlation 0 changes nothing. -/
theorem synth_step2 :
    scanStep 6 [10, 0, 0, 0, -10, 0, 0, 0, 0] [0, 0, 0, 10, 0, 0, 0, -10, 0]
      ⟨some 0, some 0, some 0⟩ 2 = ⟨some 0, some 0, some 0⟩ := by
  norm_num [scanStep, synth_corr2]

/-- Scan step at lag 3: the perfect correlation 1 becomes the best. -/
theorem synth_step3 :
    scanStep 6 [10, 0, 0, 0, -10, 0, 0, 0, 0] [0, 0, 0, 10, 0, 0, 0, -10, 0]
      ⟨some 0, some 0, some 0⟩ 3 = ⟨some 3, some 1, some 0⟩ := by
  norm_num [scanStep, synth_corr3]

/-- Scan step at lag 4: too few aligned points, skipped. -/
theorem synth_step4 :
    scanStep 6 [10, 0, 0, 0, -10, 0, 0, 0, 0] [0, 0, 0, 10, 0, 0, 0, -10, 0]
      ⟨some 3, some 1, some 0⟩ 4 = ⟨some 3, some 1, some 0⟩ := by
  norm_num [scanStep]

/-- Scan step at lag 5: too few aligned points, skipped. -/
theorem synth_step5 :
    scanStep 6 [10, 0, 0, 0, -10, 0, 0, 0, 0] [0, 0, 0, 10, 0, 0, 0, -10, 0]
      ⟨some 3, some 1, some 0⟩ 5 = ⟨some 3, some 1, some 0⟩ := by
  norm_num [scanStep]

/-- The lag scan over the synthetic series: best lag 3 with correlation 1,
second-best correlation 0. -/
theorem synth_scan :
    scanAll 6 5 [10, 0, 0, 0, -10, 0, 0, 0, 0] [0, 0, 0, 10, 0, 0, 0, -10, 0] =
      ⟨some 3, some 1, some 0⟩ := by
  simp only [scanAll]
  rw [show List.range (5 + 1) = [0, 1, 2, 3, 4, 5] from rfl]
  simp only [List.foldl_cons, List.foldl_nil]
  rw [synth_step0, synth_step1, synth_step2, synth_step3, synth_step4, synth_step5]

/-- C6: on the 10-tick synthetic history where pm replays spot delayed by 3
samples at uniform 5s spacing (scanned with min_points=10,
min_corr_points=6, max_lag_points=5 and the default 0.20/0.05 confidence
thresholds), the estimator reports ok=true, best_corr=1, dt_ms=5000 and
lag_ms=15000 — but the returned lag_points field is 6
(`len(s_ret) - best_lag`), not the best lag 3, so lag_ms ≠ lag_points*dt_ms
in the returned estimate. -/
theorem C6_lag_estimate_on_synthetic_replay :
    (estimateMarketLag (some synthHist) 5 10 6 (1 / 5) (1 / 20)).ok = true ∧
      (estimateMarketLag (some synthHist) 5 10 6 (1 / 5) (1 / 20)).lagMs = some 15000 ∧
      (estimateMarketLag (some synthHist) 5 10 6 (1 / 5) (1 / 20)).dtMs = some 5000 ∧
      (estimateMarketLag (some synthHist) 5 10 6 (1 / 5) (1 / 20)).bestCorr = some 1 ∧
      (estimateMarketLag (some synthHist) 5 10 6 (1 / 5) (1 / 20)).lagPoints = some 6 ∧
      (estimateMarketLag (some synthHist) 5 10 6 (1 / 5) (1 / 20)).lagPoints ≠ some 3 := by
  have hres : estimateMarketLag (some synthHist) 5 10 6 (1 / 5) (1 / 20) =
      ⟨true, some 15000, some 6, some 5000, some 1, some 0, some 1, none⟩ := by
    simp only [estimateMarketLag]
    rw [synth_sret, synth_pret, synth_dts, synth_dtMs]
    rw [show nPricesOf synthHist = 10 from rfl]
    have g1 : ¬ ((10 : ℕ) < max 10 3) := by norm_num
    have g2 : ¬ (([(10 : ℝ), 0, 0, 0, -10, 0, 0, 0, 0].length) < max (10 - 1) 3) := by
      norm_num
    have g3 : ¬ (([(5000 : ℝ), 5000, 5000, 5000, 5000, 5000, 5000, 5000] : List ℝ) = []) := by
      simp
    have g4 : ¬ ((5000 : ℝ) ≤ 0) := by norm_num
    rw [if_neg g1, if_neg g2, if_neg g3, if_neg g4]
    rw [synth_std_s, synth_std_p]
    have g5 : ¬ ((5 : ℝ) < 1 / 1000000000 ∨ (5 : ℝ) < 1 / 1000000000) := by norm_num
    rw [if_neg g5]
    rw [show ((max 0 (5 : ℤ)).toNat) = 5 from rfl]
    rw [synth_scan]
    norm_num [MarketLagEstimate.mk.injEq, decide_eq_true_eq, Option.map]
  rw [hres]
  norm_num
